import Mathlib

/-!
Verification of the Tenge data-access layer (`src/index.js`) against its
natural-language specification.

The development contains three shallow embeddings, each translated from the
source:

* `TengeM` — the CRUD orchestrator (`insert`, `find`, `count`, `size`,
  `remove`, `updateOne`, `updateAll`) and the hook pipeline (`_runHooks`),
  over a sequential model of the document store specified in §6 of the spec
  (the mongojs driver itself is an external collaborator; its `insert`,
  `find`/cursor, `update`, `findAndModify` and `remove` primitives are
  modelled at their interface).  Store calls and hook-chain runs are
  recorded in an explicit event trace so that claims about *which* store
  query was issued and *which* hook chain ran become statements about the
  trace.
* `JSQ` — a value-level embedding of the query normalizer
  (`Tenge.prototype._makeQuery` and `Tenge.prototype._queryTransformers`,
  src/index.js:473-510), treating JS objects as trees.
* `JSH` — a heap-level embedding of the same normalizer that makes object
  identity and in-place mutation (lodash `_.omit` shallow copy and
  `_.merge` deep merge) observable, used for the frame claim about
  `_makeQuery` not mutating its input.
-/

namespace TengeM

/-- A document of the store model.  `key` is the store-assigned primary key
(mongo `_id`); `fields` are the remaining fields, simplified to scalar
values.  The application identifier `id` of the spec is just one of the
`fields` entries. -/
structure Doc where
  key : Nat
  fields : List (String × Nat)
deriving DecidableEq

/-- Mongo query objects as they are actually issued by the orchestrator:
either a caller-supplied filter (modelled as a conjunction of field
equalities, the shape used throughout the repository's tests) or the
key-set filter `{_id: {$in: keys}}` that `remove`/`updateAll` build
internally (src/index.js:335,431,444). -/
inductive Query where
  | fields (eqs : List (String × Nat))
  | byKeys (keys : List Nat)
deriving DecidableEq

/-- Whether a document matches a query. -/
def matchesQ : Query → Doc → Bool
  | Query.fields eqs, d => eqs.all (fun kv => decide (d.fields.lookup kv.1 = some kv.2))
  | Query.byKeys ks, d => decide (d.key ∈ ks)

/-- Mongo update documents, restricted to the `{$set: {...}}` shape used by
the repository's tests; `$set` never touches `_id`. -/
abbrev Upd := List (String × Nat)

/-- Sets field `k` to `v`, replacing an existing binding or appending. -/
def setFieldN (fs : List (String × Nat)) (k : String) (v : Nat) : List (String × Nat) :=
  if fs.any (fun kv => kv.1 == k) then
    fs.map (fun kv => if kv.1 == k then (k, v) else kv)
  else fs ++ [(k, v)]

/-- Applies a `{$set: u}` update document to a field list. -/
def applySet (u : Upd) (fs : List (String × Nat)) : List (String × Nat) :=
  u.foldl (fun acc kv => setFieldN acc kv.1 kv.2) fs

/-- Applies an update to a document; the primary key is never modified. -/
def applyU (u : Upd) (d : Doc) : Doc :=
  Doc.mk d.key (applySet u d.fields)

/-- Equality fields an upsert seeds the new document with (mongo builds the
upserted document from the filter's equality conditions plus the update). -/
def eqSeed : Query → List (String × Nat)
  | Query.fields eqs => eqs
  | Query.byKeys _ => []

/-- State of one store collection: the documents plus the next fresh
primary key the store will assign. -/
structure Store where
  col : List Doc
  nextKey : Nat
deriving DecidableEq

/-- Hook handlers as used by `Tenge.prototype._runHooks`
(src/index.js:520-529): a handler receives the shared mutable payload and
signals continuation (`none`) or failure (`some err`), possibly having
mutated the payload. -/
abbrev HookF (π : Type) := π → Option String × π

/-- Result of one `_runHooks` chain run: the error passed to the final
callback (if any), the payload as mutated so far (the callback receives
`params.docs` even on error, src/index.js:528), and the number of handler
invocations actually performed. -/
structure HRun (π : Type) where
  err : Option String
  pay : π
  calls : Nat
deriving DecidableEq

/-- Embedding of `Tenge.prototype._runHooks` (src/index.js:520-529): the
handlers run sequentially over one shared payload; the chain stops at the
first handler signalling an error; `calls` counts handler invocations. -/
def runHooksG {π : Type} : List (HookF π) → π → HRun π
  | [], p => HRun.mk none p 0
  | h :: hs, p =>
    match h p with
    | (some e, p2) => HRun.mk (some e) p2 1
    | (none, p2) =>
      let r := runHooksG hs p2
      HRun.mk r.err r.pay (r.calls + 1)

/-- Hook chains of the orchestrator: docs-list payloads. -/
abbrev Hook := HookF (List Doc)

/-- The hook registry of a Tenge instance (src/index.js:28-31). -/
structure HookReg where
  beforeInsert : List Hook
  beforeRemove : List Hook
  afterInsert : List Hook
  afterUpdate : List Hook
  afterUpsert : List Hook
  afterRemove : List Hook

/-- A registry with no handlers registered. -/
def noHooks : HookReg := HookReg.mk [] [] [] [] [] []

/-- Identifiers of the six hook chains. -/
inductive ChainId where
  | beforeInsert | beforeRemove | afterInsert | afterUpdate | afterUpsert | afterRemove
deriving DecidableEq

/-- Events recorded while an operation runs: the store calls it issues and
the hook chains it starts (with the payload handed to the chain). -/
inductive Ev where
  | find (q : Query) (keyProjection : Bool)
  | update (q : Query) (upsert : Bool)
  | removeEv (q : Query)
  | insertEv (docs : List Doc)
  | famEv (q : Query) (upsert : Bool)
  | hooks (c : ChainId) (docs : List Doc)
deriving DecidableEq

instance {ε α : Type} [DecidableEq ε] [DecidableEq α] : DecidableEq (Except ε α) := by
  intro x y
  cases x <;> cases y
  case error.error a b =>
    exact if h : a = b then Decidable.isTrue (by rw [h]) else
      Decidable.isFalse (fun hc => h (by injection hc))
  case ok.ok a b =>
    exact if h : a = b then Decidable.isTrue (by rw [h]) else
      Decidable.isFalse (fun hc => h (by injection hc))
  case error.ok a b => exact Decidable.isFalse (fun hc => by injection hc)
  case ok.error a b => exact Decidable.isFalse (fun hc => by injection hc)

/-- Outcome of one orchestrator operation: resulting store state, event
trace, and the data delivered to the caller's callback (`Except` for the
error-first callback convention). -/
structure OpOut where
  store : Store
  trace : List Ev
  out : Except String (List Doc)
deriving DecidableEq

/-- Converts a finished hook-chain run into the operation's callback value
(`cb(err, params.docs)`, src/index.js:528). -/
def hookResult (r : HRun (List Doc)) : Except String (List Doc) :=
  match r.err with
  | some e => Except.error e
  | none => Except.ok r.pay

/-- The hook-chain events of a trace, in order. -/
def hookEvents (tr : List Ev) : List (ChainId × List Doc) :=
  tr.filterMap (fun e => match e with | Ev.hooks c ds => some (c, ds) | _ => none)

/-- The multi-update store calls of a trace, in order. -/
def updateEvents (tr : List Ev) : List (Query × Bool) :=
  tr.filterMap (fun e => match e with | Ev.update q b => some (q, b) | _ => none)

/-- The remove store calls of a trace, in order. -/
def removeEvents (tr : List Ev) : List Query :=
  tr.filterMap (fun e => match e with | Ev.removeEv q => some q | _ => none)

/-- Embedding of `Tenge._assert` (src/index.js:534-536). -/
def tassert (c : Bool) (msg : String) : Except String Unit :=
  if c then Except.ok () else Except.error ("Tenge: " ++ msg)

/-- Default sort `{_id: 1}` that `updateAll` installs (src/index.js:411). -/
def keyLeB (a b : Doc) : Bool := decide (a.key ≤ b.key)

/-- Sorting of a result set by a (boolean) sort specification; insertion
sort, matching the stable, comparator-driven sort the cursor applies. -/
def sortByB (le : Doc → Doc → Bool) (l : List Doc) : List Doc :=
  List.insertionSort (fun a b => le a b = true) l

/-- Find parameters after query normalization (`Tenge.prototype._findCursor`,
src/index.js:290-303): query, optional sort, skip and limit.  JS falsy
values are modelled by `0`: the cursor applies `skip` only when truthy and
passes `null` (no limit) when `limit` is falsy (src/index.js:299-300). -/
structure FindParams where
  query : Query
  sort : Option (Doc → Doc → Bool)
  skip : Nat
  limit : Nat

/-- Embedding of `Tenge.prototype.find` (src/index.js:226-234): the cursor's
`toArray()` — filter, then sort, then skip, then limit. -/
def find (s : Store) (p : FindParams) : List Doc :=
  let m := s.col.filter (matchesQ p.query)
  let m := match p.sort with
    | some le => sortByB le m
    | none => m
  let m := m.drop p.skip
  if p.limit = 0 then m else m.take p.limit

/-- Embedding of `Tenge.prototype.count` (src/index.js:257-265): the
cursor's `count()` reports the raw match cardinality — per the store
contract (§4.3, §6) skip and limit are *not* applied. -/
def count (s : Store) (p : FindParams) : Nat :=
  (s.col.filter (matchesQ p.query)).length

/-- Embedding of `Tenge.prototype.size` (src/index.js:275-283): the
cursor's `size()` reports the yield after skip and limit are applied. -/
def size (s : Store) (p : FindParams) : Nat :=
  (find s p).length

/-- Embedding of the argument normalization of `Tenge.prototype.insert`
(src/index.js:197): `_.compact([].concat(params.doc, params.docs))` — the
concat turns an absent `doc`/`docs` into `undefined` entries, which
`_.compact` drops again (documents are objects, hence truthy). -/
def insertDocsOf (dOpt : Option Doc) (dsOpt : Option (List Doc)) : List Doc :=
  dOpt.toList ++ dsOpt.getD []

/-- Truthiness of a JS array: an array object is *always* truthy, even when
empty.  The assertion at src/index.js:198 tests the array itself, not its
length. -/
def jsArrayTruthy (_l : List Doc) : Bool := true

/-- Embedding of `Tenge.prototype.insert` (src/index.js:193-208): normalize
`doc`/`docs`, assert, run before-insert hooks, bulk-insert, run
after-insert hooks.  The store appends the documents (keys are taken as
given; mongo honours caller-supplied `_id`s). -/
def insertOp (s : Store) (hr : HookReg) (dOpt : Option Doc) (dsOpt : Option (List Doc)) :
    OpOut :=
  let ds := insertDocsOf dOpt dsOpt
  match tassert (jsArrayTruthy ds) "no doc or docs specified for insert operation" with
  | Except.error e => OpOut.mk s [] (Except.error e)
  | Except.ok _ =>
    let r := runHooksG hr.beforeInsert ds
    match r.err with
    | some e => OpOut.mk s [Ev.hooks ChainId.beforeInsert ds] (Except.error e)
    | none =>
      let s1 := Store.mk (s.col ++ r.pay) s.nextKey
      let r2 := runHooksG hr.afterInsert r.pay
      OpOut.mk s1
        [Ev.hooks ChainId.beforeInsert ds, Ev.insertEv r.pay, Ev.hooks ChainId.afterInsert r.pay]
        (hookResult r2)

/-- Embedding of `Tenge.prototype.remove` (src/index.js:319-344): snapshot
the matching documents with `find`, run before-remove hooks on the
snapshot, delete by the primary keys of the (possibly hook-modified) list
— skipping the store call when the list is empty — then run after-remove
hooks on that same list and return it. -/
def removeOp (s : Store) (hr : HookReg) (p : FindParams) : OpOut :=
  let docs0 := find s p
  let r := runHooksG hr.beforeRemove docs0
  match r.err with
  | some e =>
    OpOut.mk s [Ev.find p.query false, Ev.hooks ChainId.beforeRemove docs0] (Except.error e)
  | none =>
    let ks := r.pay.map Doc.key
    let r2 := runHooksG hr.afterRemove r.pay
    if r.pay.isEmpty then
      OpOut.mk s
        [Ev.find p.query false, Ev.hooks ChainId.beforeRemove docs0,
         Ev.hooks ChainId.afterRemove r.pay]
        (hookResult r2)
    else
      let s1 := Store.mk (s.col.filter (fun d => !(matchesQ (Query.byKeys ks) d))) s.nextKey
      OpOut.mk s1
        [Ev.find p.query false, Ev.hooks ChainId.beforeRemove docs0,
         Ev.removeEv (Query.byKeys ks), Ev.hooks ChainId.afterRemove r.pay]
        (hookResult r2)

/-- Replaces the first document satisfying `p` by its updated version,
returning the new list and the (post-update) document; `none` when nothing
matches.  Models the single-document selection of the store's atomic
`findAndModify` with `new: true` (no sort given: natural order). -/
def famUpdateFirst (p : Doc → Bool) (u : Upd) : List Doc → Option (List Doc × Doc)
  | [] => none
  | d :: ds =>
    if p d then some (applyU u d :: ds, applyU u d)
    else
      match famUpdateFirst p u ds with
      | some (ds2, d2) => some (d :: ds2, d2)
      | none => none

/-- Store contract `findAndModify(filter, update, {upsert, returnNew}) →
Document | null, {wasUpserted}` (spec §6): updates the first match in
place; with `upsert` and no match, creates a document seeded from the
filter's equality fields and reports the was-upserted flag. -/
def storeFindAndModify (s : Store) (q : Query) (u : Upd) (ups : Bool) :
    Store × Option Doc × Bool :=
  match famUpdateFirst (matchesQ q) u s.col with
  | some (col2, d2) => (Store.mk col2 s.nextKey, some d2, false)
  | none =>
    if ups then
      let d := Doc.mk s.nextKey (applySet u (eqSeed q))
      (Store.mk (s.col ++ [d]) (s.nextKey + 1), some d, true)
    else (s, none, false)

/-- Embedding of the post-findAndModify step of `Tenge.prototype.updateOne`
(src/index.js:375-392): assert a resulting document exists — failing with
`Upsert failed` when upsert was requested and `Document does not exist`
otherwise — then run exactly one of the after-upsert / after-update chains
on `[doc]`, selected by the store's was-upserted flag
(`lastErrorObject.upserted`).  Returns the callback value and the hook
events.  The callback receives the document object passed before the hook
stage (src/index.js:384, hooks mutate it in place). -/
def updateOneAfterFAM (dOpt : Option Doc) (wasUps : Bool) (ups : Bool) (hr : HookReg) :
    Except String (List Doc) × List Ev :=
  match dOpt with
  | none =>
    (Except.error ("Tenge: " ++ (if ups then "Upsert failed" else "Document does not exist")), [])
  | some d =>
    if wasUps then
      let r := runHooksG hr.afterUpsert [d]
      (match r.err with
        | some e => Except.error e
        | none => Except.ok [d], [Ev.hooks ChainId.afterUpsert [d]])
    else
      let r := runHooksG hr.afterUpdate [d]
      (match r.err with
        | some e => Except.error e
        | none => Except.ok [d], [Ev.hooks ChainId.afterUpdate [d]])

/-- Embedding of `Tenge.prototype.updateOne` (src/index.js:364-393): issue
the store's atomic find-and-modify with `new: true`, then the assertion
and hook dispatch of `updateOneAfterFAM`. -/
def updateOne (s : Store) (hr : HookReg) (q : Query) (u : Upd) (ups : Bool) : OpOut :=
  let fam := storeFindAndModify s q u ups
  let step := updateOneAfterFAM fam.2.1 fam.2.2 ups hr
  OpOut.mk fam.1 (Ev.famEv q ups :: step.2) step.1

/-- Result reported by the store's multi-update: matched count and the keys
of upserted documents (`result.upserted`, src/index.js:439). -/
structure UpdResult where
  matched : Nat
  upserted : List Nat
deriving DecidableEq

/-- Store contract `update(filter, update, {multi, upsert}) →
{matchedCount, upsertedKeys}` (spec §6): updates every matching document in
place; with `upsert` and no match, creates one document seeded from the
filter's equality fields and reports its fresh key. -/
def storeUpdate (s : Store) (q : Query) (u : Upd) (ups : Bool) : Store × UpdResult :=
  let m := s.col.filter (matchesQ q)
  if m.isEmpty then
    if ups then
      (Store.mk (s.col ++ [Doc.mk s.nextKey (applySet u (eqSeed q))]) (s.nextKey + 1),
       UpdResult.mk 1 [s.nextKey])
    else (s, UpdResult.mk 0 [])
  else
    (Store.mk (s.col.map (fun d => if matchesQ q d then applyU u d else d)) s.nextKey,
     UpdResult.mk m.length [])

/-- Embedding of `Tenge.prototype.updateAll` (src/index.js:409-461), the
read-ids / write-by-ids / re-read-by-ids protocol.  `params.sort` defaults
to `{_id: 1}` (line 411; a caller-supplied sort is not modelled, no claim
exercises one).  Step 1 snapshots the keys of the documents matching the
filter (a find with projection `{_id: true}`); step 2 issues the
multi-update — against the original filter with the upsert option when the
snapshot is empty and upsert was requested, else restricted to the
snapshot's key set; step 3 re-fetches by the resulting key set (skipped
when it is empty); step 4 runs after-update hooks when the snapshot was
non-empty, after-upsert hooks otherwise, and returns the post-hook list. -/
def updateAll (s : Store) (hr : HookReg) (q : Query) (u : Upd) (ups : Bool) : OpOut :=
  let snap := find s (FindParams.mk q (some keyLeB) 0 0)
  let ids := snap.map Doc.key
  let step2 :=
    if ids.isEmpty && ups then (storeUpdate s q u true, Ev.update q true)
    else (storeUpdate s (Query.byKeys ids) u false, Ev.update (Query.byKeys ids) false)
  let s1 := step2.1.1
  let ids2 := if ids.isEmpty then step2.1.2.upserted else ids
  if ids2.isEmpty then
    OpOut.mk s1 [Ev.find q true, step2.2] (Except.ok [])
  else
    let fetched := find s1 (FindParams.mk (Query.byKeys ids2) (some keyLeB) 0 0)
    if fetched.isEmpty then
      OpOut.mk s1 [Ev.find q true, step2.2, Ev.find (Query.byKeys ids2) false] (Except.ok [])
    else
      if ids.isEmpty then
        let r := runHooksG hr.afterUpsert fetched
        OpOut.mk s1
          [Ev.find q true, step2.2, Ev.find (Query.byKeys ids2) false,
           Ev.hooks ChainId.afterUpsert fetched]
          (hookResult r)
      else
        let r := runHooksG hr.afterUpdate fetched
        OpOut.mk s1
          [Ev.find q true, step2.2, Ev.find (Query.byKeys ids2) false,
           Ev.hooks ChainId.afterUpdate fetched]
          (hookResult r)

/-- A handler that records the size of the payload it was handed (mirrors
the probing handlers of the repository's test suite,
src/unnamed/part_003:1052-1067). -/
def probeHook : Hook := fun l => (none, [Doc.mk l.length []])

/-- Handlers used to replay the spec's hook-chain abort scenario
`[h1, h2, h3(fails), h4]` over a numeric payload. -/
def pushHook (n : Nat) : HookF (List Nat) := fun l => (none, l ++ [n])

/-- The failing third handler of the abort scenario. -/
def failHook : HookF (List Nat) := fun l => (some "error", l ++ [3])

end TengeM

namespace JSQ

/-- JS values as trees, for the value-level embedding of the query
normalizer: strings, the store's native ObjectId wrapping of a textual id,
arrays, and plain objects (binding lists in insertion order). -/
inductive JVal where
  | str (s : String)
  | oid (s : String)
  | arr (elems : List JVal)
  | obj (fields : List (String × JVal))

/-- JS object: ordered field bindings. -/
abbrev JObj := List (String × JVal)

/-- JS errors the normalizer can throw: a TypeError from calling a
non-function, or the `Tenge: ...` error thrown by `_assert`. -/
inductive JsErr where
  | typeError (msg : String)
  | tengeError (msg : String)
deriving DecidableEq

/-- JS truthiness of the values `_.compact` filters on: of our values only
the empty string is falsy. -/
def jsTruthy : JVal → Bool
  | JVal.str s => !(s == "")
  | _ => true

/-- Lodash `_.compact`: drops falsy elements. -/
def compactL (l : List JVal) : List JVal := l.filter jsTruthy

/-- Elements of an array value (non-arrays contribute nothing). -/
def elemsOf : JVal → List JVal
  | JVal.arr xs => xs
  | _ => []

/-- The expression `Tenge.makeOID` as the transformers evaluate it
(src/index.js:505,508).  The source assigns `makeOID` only to
`Tenge.prototype` (src/index.js:132), never to the `Tenge` constructor
itself, so the static property lookup yields JS `undefined` — modelled as
`none`. -/
def TengeStaticMakeOID : Option (JVal → JVal) := none

/-- `Tenge.prototype.makeOID` (src/index.js:132-134): converts an id
string into the store's native ObjectId representation.  This is the
function the transformers were evidently meant to call. -/
def makeOID : JVal → JVal
  | JVal.str s => JVal.oid s
  | v => v

/-- Lodash `_.map(collection, iteratee)` with a possibly-undefined
iteratee: lodash 3 treats a nullish iteratee as the identity, so
`_.map(val, Tenge.makeOID)` silently maps nothing when `Tenge.makeOID` is
`undefined`. -/
def lodashMapWith (g : Option (JVal → JVal)) (v : JVal) : List JVal :=
  (elemsOf v).map (fun x => match g with | some f => f x | none => x)

/-- Sets field `k` to `v` on an object, replacing in place or appending. -/
def setF (o : JObj) (k : String) (v : JVal) : JObj :=
  if o.any (fun kv => kv.1 == k) then
    o.map (fun kv => if kv.1 == k then (k, v) else kv)
  else o ++ [(k, v)]

mutual
/-- Lodash `_.merge(dst, src)` on plain objects (value level): source
fields overwrite, except that an object field merges recursively into an
existing object field.  (Lodash's positional array-array merge is not
modelled; no claim exercises it.) -/
def mergeObj : JObj → JObj → JObj
  | d, [] => d
  | d, (k, v) :: rest => mergeObj (mergeKey d k v) rest

/-- Merge of a single source binding into an object. -/
def mergeKey : JObj → String → JVal → JObj
  | d, k, JVal.obj so =>
    match List.lookup k d with
    | some (JVal.obj dso) => setF d k (JVal.obj (mergeObj dso so))
    | _ => setF d k (JVal.obj so)
  | d, k, v => setF d k v
end

/-- The registered transformer table `Tenge.prototype._queryTransformers`
(src/index.js:497-510), applied to one `$$` entry.  `id` maps to an
equality filter on the application-id field, `ids` to an id-membership
filter over the compacted list.  The store-primary-key variants evaluate
`Tenge.makeOID` — which is `undefined`: `_id` *calls* it and therefore
throws a TypeError, while `_ids` passes it to `_.map`, which treats the
undefined iteratee as the identity, leaving the textual ids unconverted.
Unregistered keys yield `none` and `_makeQuery` asserts
(src/index.js:480-481). -/
def queryTransformers (k : String) (v : JVal) : Option (Except JsErr JObj) :=
  if k == "id" then some (Except.ok [("id", v)])
  else if k == "ids" then
    some (Except.ok [("id", JVal.obj [("$in", JVal.arr (compactL (elemsOf v)))])])
  else if k == "_id" then
    some (match TengeStaticMakeOID with
      | none => Except.error (JsErr.typeError "Tenge.makeOID is not a function")
      | some f => Except.ok [("_id", f v)])
  else if k == "_ids" then
    some (Except.ok
      [("_id", JVal.obj [("$in", JVal.arr (compactL (lodashMapWith TengeStaticMakeOID v)))])])
  else none

/-- Value-level embedding of `Tenge.prototype._makeQuery`
(src/index.js:473-486) applied to `params.query`: read the `$$` marker
sub-object, shallow-copy the query without it (`_.omit`), then fold the
marker entries through the transformer table, merging each fragment into
the accumulated query (`_.transform` + `_.merge`). -/
def makeQuery (query : JObj) : Except JsErr JObj :=
  let ss : JObj := match List.lookup "$$" query with
    | some (JVal.obj o) => o
    | _ => []
  let base := query.filter (fun kv => !(kv.1 == "$$"))
  ss.foldlM (fun acc kv =>
    match queryTransformers kv.1 kv.2 with
    | none => Except.error (JsErr.tengeError
        ("Tenge: No query transformer registered for \"$$." ++ kv.1 ++ "\""))
    | some (Except.error e) => Except.error e
    | some (Except.ok frag) => Except.ok (mergeObj acc frag)) base

end JSQ

namespace JSH

/-- Heap values for the object-identity-aware embedding of `_makeQuery`:
strings, arrays of textual ids, and references to heap objects.  In JS an
array is itself an object with identity; this model gives addressable
identity only to `ref` values and treats `arr` as an immutable value, so
mutation of a caller-shared *array* is outside the model.  Every frame
theorem below therefore excludes identity-carrying values — `ref` *and*
`arr` alike, via `hasIdentity` — from the positions the caller shares
with the normalizer; `arr` only ever appears as the payload of freshly
built values there. -/
inductive HVal where
  | str (s : String)
  | arr (xs : List String)
  | ref (a : Nat)
deriving DecidableEq

/-- A heap object: ordered field bindings. -/
abbrev HObj := List (String × HVal)

/-- The heap: object at address `a` is entry `a`; allocation appends. -/
abbrev Heap := List HObj

/-- Reads the object at an address (absent addresses read as `{}`). -/
def getO (h : Heap) (a : Nat) : HObj := h.getD a []

/-- Overwrites the object at an address in place. -/
def setO (h : Heap) (a : Nat) (o : HObj) : Heap := h.set a o

/-- Allocates a fresh object, returning the new heap and its address. -/
def alloc (h : Heap) (o : HObj) : Heap × Nat := (h ++ [o], h.length)

/-- Sets field `k` to `v` on an object value. -/
def setF (o : HObj) (k : String) (v : HVal) : HObj :=
  if o.any (fun kv => kv.1 == k) then
    o.map (fun kv => if kv.1 == k then (k, v) else kv)
  else o ++ [(k, v)]

/-- Whether a value is an object reference. -/
def isRef : HVal → Bool
  | HVal.ref _ => true
  | _ => false

/-- An object none of whose field values is a reference. -/
def NoRefs (o : HObj) : Prop := ∀ kv, kv ∈ o → isRef kv.2 = false

/-- Whether a value carries JS object identity.  Object references do, and
so do arrays — a JS array is an object, and lodash 3 merges an array over
a caller-shared array *positionally in place* (e.g. merging `["x"]` over a
shared `["a","b"]` leaves the caller reading `["x","b"]`).  Only plain
strings are identity-free.  Since this model does not give arrays
addressable identity, the frame theorem quantifies only over inputs whose
shared positions hold identity-free values. -/
def hasIdentity : HVal → Bool
  | HVal.str _ => false
  | _ => true

/-- An object all of whose field values are identity-free primitives
(plain strings): nothing in it can be mutated through sharing. -/
def NoSharedVals (o : HObj) : Prop := ∀ kv, kv ∈ o → hasIdentity kv.2 = false

/-- Heap-level lodash `_.merge(dst, src)` (src/index.js:482): source fields
are assigned onto the destination object *in place*, except that when both
the destination and the source hold object references under a key the
merge recurses into the destination's object — mutating it — rather than
rebinding the key.  `fuel` bounds the recursion depth (lodash itself would
loop on cyclic structures).  Lodash 3's *array-into-array* positional
in-place merge is not modelled (`arr` values are assigned wholesale), which
is faithful only while no caller-shared position holds an array: the frame
theorem below restricts its inputs accordingly (`hasIdentity`), and its
amended claim excludes arrays for exactly this reason. -/
def mergeH : Nat → Heap → Nat → HObj → Heap
  | 0, h, _, _ => h
  | fuel + 1, h, dst, src =>
    src.foldl (fun hh kv =>
      match kv.2 with
      | HVal.ref sa =>
        match List.lookup kv.1 (getO hh dst) with
        | some (HVal.ref da) => mergeH fuel hh da (getO hh sa)
        | _ => setO hh dst (setF (getO hh dst) kv.1 kv.2)
      | _ => setO hh dst (setF (getO hh dst) kv.1 kv.2)) h

/-- One step of the merge fold, named for reasoning. -/
def mergeStep (fuel : Nat) (dst : Nat) (hh : Heap) (kv : String × HVal) : Heap :=
  match kv.2 with
  | HVal.ref sa =>
    match List.lookup kv.1 (getO hh dst) with
    | some (HVal.ref da) => mergeH fuel hh da (getO hh sa)
    | _ => setO hh dst (setF (getO hh dst) kv.1 kv.2)
  | _ => setO hh dst (setF (getO hh dst) kv.1 kv.2)



/-- Lodash `_.compact` over a marker value expected to be an array of id
strings (the only shape the repository uses). -/
def compactHV : HVal → HVal
  | HVal.arr xs => HVal.arr (xs.filter (fun s => !(s == "")))
  | v => v

/-- Heap-level transformer table (src/index.js:497-510): given one `$$`
entry, returns the possibly extended heap and the fragment object to merge
— `id` an equality binding, `ids`/`_ids` a freshly allocated
`{$in: compacted}` sub-object (for `_ids` the undefined `Tenge.makeOID`
iteratee makes `_.map` the identity, as in the value-level model); `_id`
calls the undefined `Tenge.makeOID` and throws, and unknown keys fail the
`_assert` (src/index.js:480-481). -/
def fragFor (h : Heap) (k : String) (v : HVal) : Except JSQ.JsErr (Heap × HObj) :=
  if k == "id" then Except.ok (h, [("id", v)])
  else if k == "ids" then
    Except.ok ((alloc h [("$in", compactHV v)]).1,
      [("id", HVal.ref (alloc h [("$in", compactHV v)]).2)])
  else if k == "_id" then
    Except.error (JSQ.JsErr.typeError "Tenge.makeOID is not a function")
  else if k == "_ids" then
    Except.ok ((alloc h [("$in", compactHV v)]).1,
      [("_id", HVal.ref (alloc h [("$in", compactHV v)]).2)])
  else
    Except.error (JSQ.JsErr.tengeError
      ("Tenge: No query transformer registered for \"$$." ++ k ++ "\""))

/-- The `_.transform` fold of `_makeQuery` (src/index.js:478-483): resolve
each marker entry and merge its fragment into the accumulated query object
at `nq`, in place. -/
def mqFold (fuel : Nat) (nq : Nat) : Heap → HObj → Except JSQ.JsErr Heap
  | h, [] => Except.ok h
  | h, kv :: rest =>
    match fragFor h kv.1 kv.2 with
    | Except.error e => Except.error e
    | Except.ok hf => mqFold fuel nq (mergeH fuel hf.1 nq hf.2) rest

/-- Heap-level embedding of `Tenge.prototype._makeQuery`
(src/index.js:473-486) applied to the params object at `pa`: read
`params.query` and its `$$` marker object, build the base query as a
*fresh* object whose bindings are the query's without `$$` — `_.omit` is a
shallow copy, so nested values are shared by reference — then fold the
marker entries through the transformers, merging fragments into the fresh
object in place, and return a fresh `{query: ...}` object. -/
def makeQueryH (fuel : Nat) (h : Heap) (pa : Nat) : Except JSQ.JsErr (Heap × Nat) :=
  let qobj := match List.lookup "query" (getO h pa) with
    | some (HVal.ref qa) => getO h qa
    | _ => []
  let ssO : HObj := match List.lookup "$$" qobj with
    | some (HVal.ref sa) => getO h sa
    | _ => []
  let base := qobj.filter (fun kv => !(kv.1 == "$$"))
  match mqFold fuel h.length (h ++ [base]) ssO with
  | Except.error e => Except.error e
  | Except.ok h2 => Except.ok (h2 ++ [[("query", HVal.ref h.length)]], h2.length)


/-- Invariant maintained while `_makeQuery` folds the marker entries, with
`n` the length of the caller's heap and `nq` the freshly allocated base
query object: the caller's heap below `n` is untouched, every reference
held by the fresh query object points at or above `n` but never back at
itself, and every object at or above `n` other than the fresh query object
is reference-free (they are the freshly allocated `{in: ...}` fragment
bodies). -/
def Inv (n nq : Nat) (h0 h : Heap) : Prop :=
  n ≤ nq ∧ nq < h.length ∧
  (∀ a, a < n → getO h a = getO h0 a) ∧
  (∀ k a2, (k, HVal.ref a2) ∈ getO h nq → n ≤ a2 ∧ a2 ≠ nq) ∧
  (∀ a2, n ≤ a2 → a2 ≠ nq → NoRefs (getO h a2))

end JSH

/-- Caller heap for the C10 counterexample: `params` (address 3) holds
`query` (address 2) = `{id: <ref 0>, $$: <ref 1>}` where the nested filter
object at address 0 is `{$gt: "x"}` and the marker object at address 1 is
`{ids: ["a"]}`. -/
def mutationCexHeap : JSH.Heap :=
  [[("$gt", JSH.HVal.str "x")],
   [("ids", JSH.HVal.arr ["a"])],
   [("id", JSH.HVal.ref 0), ("$$", JSH.HVal.ref 1)],
   [("query", JSH.HVal.ref 2)]]

/-- Caller heap for the C10 witness: a flat base query `{name: "Alice"}`
with marker `{id: "V1"}`, exactly the shape of the cited test
(src/unnamed/part_003:1031-1036). -/
def flatCaseHeap : JSH.Heap :=
  [[("id", JSH.HVal.str "V1")],
   [("name", JSH.HVal.str "Alice"), ("$$", JSH.HVal.ref 0)],
   [("query", JSH.HVal.ref 1)]]

open TengeM

namespace JSH

theorem mergeH_succ (fuel : Nat) (h : Heap) (dst : Nat) (src : HObj) :
    mergeH (fuel + 1) h dst src = src.foldl (mergeStep fuel dst) h := rfl

theorem getO_setO_ne (h : Heap) (b a : Nat) (o : HObj) (hab : a ≠ b) :
    getO (setO h b o) a = getO h a := by
  unfold getO setO
  rw [List.getD_eq_getElem?_getD, List.getD_eq_getElem?_getD,
    List.getElem?_set_ne (Ne.symm hab)]

theorem getO_setO_self_of_lt (h : Heap) (b : Nat) (o : HObj) (hb : b < h.length) :
    getO (setO h b o) b = o := by
  unfold getO setO
  rw [List.getD_eq_getElem?_getD, List.getElem?_set_self hb]
  rfl

theorem getO_setO_self_cases (h : Heap) (b : Nat) (o : HObj) :
    getO (setO h b o) b = o ∨ getO (setO h b o) b = getO h b := by
  by_cases hb : b < h.length
  · exact Or.inl (getO_setO_self_of_lt h b o hb)
  · right
    unfold getO setO
    rw [List.getD_eq_getElem?_getD, List.getD_eq_getElem?_getD,
      List.getElem?_eq_none (by simpa using Nat.le_of_not_lt hb),
      List.getElem?_eq_none (Nat.le_of_not_lt hb)]

theorem getO_append_ne (h : Heap) (o : HObj) (a : Nat) (ha : a ≠ h.length) :
    getO (h ++ [o]) a = getO h a := by
  unfold getO
  rcases Nat.lt_or_ge a h.length with h1 | h1
  · rw [List.getD_eq_getElem?_getD, List.getD_eq_getElem?_getD, List.getElem?_append_left h1]
  · have h2 : h.length < a := Nat.lt_of_le_of_ne h1 (Ne.symm ha)
    rw [List.getD_eq_getElem?_getD, List.getD_eq_getElem?_getD,
      List.getElem?_eq_none (by simp; omega),
      List.getElem?_eq_none (by omega)]

theorem getO_append_self (h : Heap) (o : HObj) : getO (h ++ [o]) h.length = o := by
  unfold getO
  rw [List.getD_eq_getElem?_getD, List.getElem?_append_right (Nat.le_refl _)]
  simp

theorem getO_of_ge_length (h : Heap) (a : Nat) (ha : h.length ≤ a) : getO h a = [] := by
  unfold getO
  rw [List.getD_eq_getElem?_getD, List.getElem?_eq_none ha]
  rfl

theorem setO_length (h : Heap) (a : Nat) (o : HObj) : (setO h a o).length = h.length := by
  unfold setO
  exact List.length_set h a o

theorem setF_mem_or (o : HObj) (k : String) (v : HVal) (kv2 : String × HVal)
    (hm : kv2 ∈ setF o k v) : kv2 ∈ o ∨ kv2 = (k, v) := by
  unfold setF at hm
  by_cases hc : o.any (fun kv => kv.1 == k)
  · rw [if_pos hc] at hm
    obtain ⟨kv0, hkv0, heq⟩ := List.mem_map.mp hm
    by_cases hk : kv0.1 == k
    · rw [if_pos hk] at heq
      exact Or.inr heq.symm
    · rw [if_neg hk] at heq
      exact Or.inl (heq ▸ hkv0)
  · rw [if_neg hc] at hm
    rcases List.mem_append.mp hm with h1 | h1
    · exact Or.inl h1
    · exact Or.inr (List.mem_singleton.mp h1)

theorem NoRefs_setF (o : HObj) (k : String) (v : HVal) (ho : NoRefs o)
    (hv : isRef v = false) : NoRefs (setF o k v) := by
  intro kv hm
  rcases setF_mem_or o k v kv hm with h1 | h1
  · exact ho kv h1
  · rw [h1]
    exact hv

theorem NoRefs_nil : NoRefs [] := by
  intro kv hm
  cases hm

theorem isRef_eq_false_of_no_identity (v : HVal) (hv : hasIdentity v = false) :
    isRef v = false := by
  cases v with
  | str s => rfl
  | arr xs => simp [hasIdentity] at hv
  | ref a => simp [hasIdentity] at hv

theorem NoRefs_of_NoSharedVals (o : HObj) (ho : NoSharedVals o) : NoRefs o :=
  fun kv hm => isRef_eq_false_of_no_identity kv.2 (ho kv hm)

/-- Merging never changes the heap's length: every write is an in-place
`setO`. -/
theorem mergeH_length (fuel : Nat) :
    ∀ (src : HObj) (h : Heap) (dst : Nat), (mergeH fuel h dst src).length = h.length := by
  induction fuel with
  | zero => intro src h dst; rfl
  | succ f ihf =>
    intro src
    induction src with
    | nil => intro h dst; rfl
    | cons kv rest ih =>
      intro h dst
      rw [mergeH_succ, List.foldl_cons, ← mergeH_succ, ih]
      rcases kv with ⟨k, v⟩
      cases v with
      | str s2 => exact setO_length h dst _
      | arr xs => exact setO_length h dst _
      | ref sa =>
        simp only [mergeStep]
        rcases hl : List.lookup k (getO h dst) with - | w
        · exact setO_length h dst _
        · cases w with
          | str s3 => exact setO_length h dst _
          | arr ys => exact setO_length h dst _
          | ref da => exact ihf (getO h sa) h da

/-- A merge whose source object holds no references writes only the
destination object. -/
theorem mergeH_noRefs_frame (fuel : Nat) (dst : Nat) (src : HObj) (hs : NoRefs src) :
    ∀ (h : Heap) (a : Nat), a ≠ dst → getO (mergeH fuel h dst src) a = getO h a := by
  cases fuel with
  | zero => intro h a ha; rfl
  | succ f =>
    induction src with
    | nil => intro h a ha; rfl
    | cons kv rest ih =>
      intro h a ha
      have hv : isRef kv.2 = false := hs kv (List.mem_cons_self _ _)
      have hrest : NoRefs rest := fun kv2 hm => hs kv2 (List.mem_cons_of_mem _ hm)
      rw [mergeH_succ, List.foldl_cons, ← mergeH_succ, ih hrest _ a ha]
      rcases kv with ⟨k, v⟩
      cases v with
      | str s2 => exact getO_setO_ne h dst a _ ha
      | arr xs => exact getO_setO_ne h dst a _ ha
      | ref sa => simp [isRef] at hv

/-- A merge whose source object holds no references keeps the destination
object reference-free (only plain values get assigned). -/
theorem mergeH_noRefs_dst (fuel : Nat) (dst : Nat) (src : HObj) (hs : NoRefs src) :
    ∀ (h : Heap), NoRefs (getO h dst) → NoRefs (getO (mergeH fuel h dst src) dst) := by
  cases fuel with
  | zero => intro h hd; exact hd
  | succ f =>
    induction src with
    | nil => intro h hd; exact hd
    | cons kv rest ih =>
      intro h hd
      have hv : isRef kv.2 = false := hs kv (List.mem_cons_self _ _)
      have hrest : NoRefs rest := fun kv2 hm => hs kv2 (List.mem_cons_of_mem _ hm)
      rw [mergeH_succ, List.foldl_cons, ← mergeH_succ]
      apply ih hrest
      rcases kv with ⟨k, v⟩
      cases v with
      | str s2 =>
        show NoRefs (getO (setO h dst (setF (getO h dst) k (HVal.str s2))) dst)
        rcases getO_setO_self_cases h dst (setF (getO h dst) k (HVal.str s2)) with h1 | h1
        · rw [h1]; exact NoRefs_setF _ _ _ hd hv
        · rw [h1]; exact hd
      | arr xs =>
        show NoRefs (getO (setO h dst (setF (getO h dst) k (HVal.arr xs))) dst)
        rcases getO_setO_self_cases h dst (setF (getO h dst) k (HVal.arr xs)) with h1 | h1
        · rw [h1]; exact NoRefs_setF _ _ _ hd hv
        · rw [h1]; exact hd
      | ref sa => simp [isRef] at hv

theorem lookup_mem (k : String) (v : HVal) :
    ∀ (l : HObj), List.lookup k l = some v → (k, v) ∈ l := by
  intro l
  induction l with
  | nil => intro h; cases h
  | cons kv rest ih =>
    intro h
    rcases kv with ⟨k2, v2⟩
    by_cases hk : k == k2
    · have hkk : k = k2 := eq_of_beq hk
      rw [List.lookup, hk] at h
      have h2 : some v2 = some v := h
      injection h2 with h3
      rw [← hkk, h3]
      exact List.mem_cons_self _ _
    · have hkf : (k == k2) = false := by simpa using hk
      rw [List.lookup, hkf] at h
      exact List.mem_cons_of_mem _ (ih h)

/-- Compacting a non-reference marker value yields a non-reference. -/
theorem isRef_compactHV (v : HVal) (hv : isRef v = false) : isRef (compactHV v) = false := by
  cases v with
  | str s => exact hv
  | arr xs => rfl
  | ref a => simp [isRef] at hv

theorem Inv_alloc (n nq : Nat) (h0 h : Heap) (o : HObj) (hinv : Inv n nq h0 h)
    (ho : NoRefs o) : Inv n nq h0 (h ++ [o]) := by
  obtain ⟨h1, h2, h3, h4, h5⟩ := hinv
  refine ⟨h1, ?_, ?_, ?_, ?_⟩
  · simp only [List.length_append, List.length_cons, List.length_nil]
    omega
  · intro a ha
    rw [getO_append_ne h o a (by omega)]
    exact h3 a ha
  · intro k a2 hm
    rw [getO_append_ne h o nq (by omega)] at hm
    exact h4 k a2 hm
  · intro a2 ha2 hne
    by_cases he : a2 = h.length
    · rw [he, getO_append_self]
      exact ho
    · rw [getO_append_ne h o a2 he]
      exact h5 a2 ha2 hne

theorem Inv_setO_nonref (n nq : Nat) (h0 h : Heap) (k : String) (v : HVal)
    (hv : isRef v = false) (hinv : Inv n nq h0 h) :
    Inv n nq h0 (setO h nq (setF (getO h nq) k v)) := by
  obtain ⟨h1, h2, h3, h4, h5⟩ := hinv
  refine ⟨h1, ?_, ?_, ?_, ?_⟩
  · rw [setO_length]
    exact h2
  · intro a ha
    rw [getO_setO_ne h nq a _ (by omega)]
    exact h3 a ha
  · intro k2 a2 hm
    rcases getO_setO_self_cases h nq (setF (getO h nq) k v) with hcs | hcs
    · rw [hcs] at hm
      rcases setF_mem_or _ _ _ _ hm with hmo | hme
      · exact h4 k2 a2 hmo
      · exfalso
        have h6 := congrArg Prod.snd hme
        simp only at h6
        rw [← h6] at hv
        simp [isRef] at hv
    · rw [hcs] at hm
      exact h4 k2 a2 hm
  · intro a2 ha2 hne
    rw [getO_setO_ne h nq a2 _ hne]
    exact h5 a2 ha2 hne

theorem Inv_setO_ref (n nq : Nat) (h0 h : Heap) (key : String) (m : Nat)
    (hm1 : n ≤ m) (hm2 : m ≠ nq) (hinv : Inv n nq h0 h) :
    Inv n nq h0 (setO h nq (setF (getO h nq) key (HVal.ref m))) := by
  obtain ⟨h1, h2, h3, h4, h5⟩ := hinv
  refine ⟨h1, ?_, ?_, ?_, ?_⟩
  · rw [setO_length]
    exact h2
  · intro a ha
    rw [getO_setO_ne h nq a _ (by omega)]
    exact h3 a ha
  · intro k2 a2 hm5
    rcases getO_setO_self_cases h nq (setF (getO h nq) key (HVal.ref m)) with hcs | hcs
    · rw [hcs] at hm5
      rcases setF_mem_or _ _ _ _ hm5 with hmo | hme
      · exact h4 k2 a2 hmo
      · have h6 := congrArg Prod.snd hme
        simp only at h6
        injection h6 with h7
        rw [h7]
        exact ⟨hm1, hm2⟩
    · rw [hcs] at hm5
      exact h4 k2 a2 hm5
  · intro a2 ha2 hne
    rw [getO_setO_ne h nq a2 _ hne]
    exact h5 a2 ha2 hne

theorem Inv_merge_nonref_single (fuel n nq : Nat) (h0 h : Heap) (k : String) (v : HVal)
    (hv : isRef v = false) (hinv : Inv n nq h0 h) :
    Inv n nq h0 (mergeH fuel h nq [(k, v)]) := by
  cases fuel with
  | zero => exact hinv
  | succ f =>
    cases v with
    | ref sa => simp [isRef] at hv
    | str s2 => exact Inv_setO_nonref n nq h0 h k (HVal.str s2) hv hinv
    | arr xs => exact Inv_setO_nonref n nq h0 h k (HVal.arr xs) hv hinv

theorem Inv_merge_ref_single (fuel n nq : Nat) (h0 h : Heap) (key : String) (m : Nat)
    (hm1 : n ≤ m) (hm2 : m ≠ nq) (hmNR : NoRefs (getO h m)) (hinv : Inv n nq h0 h) :
    Inv n nq h0 (mergeH fuel h nq [(key, HVal.ref m)]) := by
  cases fuel with
  | zero => exact hinv
  | succ f =>
    have hE : mergeH (f + 1) h nq [(key, HVal.ref m)]
        = (match List.lookup key (getO h nq) with
           | some (HVal.ref da) => mergeH f h da (getO h m)
           | _ => setO h nq (setF (getO h nq) key (HVal.ref m))) := rfl
    rw [hE]
    rcases hl : List.lookup key (getO h nq) with - | w
    · exact Inv_setO_ref n nq h0 h key m hm1 hm2 ⟨hinv.1, hinv.2.1, hinv.2.2.1,
        hinv.2.2.2.1, hinv.2.2.2.2⟩
    · cases w with
      | str s3 => exact Inv_setO_ref n nq h0 h key m hm1 hm2 hinv
      | arr ys => exact Inv_setO_ref n nq h0 h key m hm1 hm2 hinv
      | ref da =>
        obtain ⟨h1, h2, h3, h4, h5⟩ := hinv
        obtain ⟨hda1, hda2⟩ := h4 key da (lookup_mem key (HVal.ref da) _ hl)
        have hdaNR : NoRefs (getO h da) := h5 da hda1 hda2
        refine ⟨h1, ?_, ?_, ?_, ?_⟩
        · rw [mergeH_length]
          exact h2
        · intro a ha
          rw [mergeH_noRefs_frame f da _ hmNR h a (by omega)]
          exact h3 a ha
        · intro k2 a2 hm5
          rw [mergeH_noRefs_frame f da _ hmNR h nq (Ne.symm hda2)] at hm5
          exact h4 k2 a2 hm5
        · intro a2 ha2 hne
          by_cases he : a2 = da
          · rw [he]
            exact mergeH_noRefs_dst f da _ hmNR h hdaNR
          · rw [mergeH_noRefs_frame f da _ hmNR h a2 he]
            exact h5 a2 ha2 hne

theorem mqFold_inv (fuel n nq : Nat) (h0 : Heap) :
    ∀ (ss : HObj), NoRefs ss → ∀ (h : Heap), Inv n nq h0 h →
      ∀ (h2 : Heap), mqFold fuel nq h ss = Except.ok h2 → Inv n nq h0 h2 := by
  intro ss
  induction ss with
  | nil =>
    intro _ h hinv h2 hok
    injection hok with h3
    rw [← h3]
    exact hinv
  | cons kv rest ih =>
    intro hss h hinv h2 hok
    have hv : isRef kv.2 = false := hss kv (List.mem_cons_self _ _)
    have hrest : NoRefs rest := fun kv2 hm => hss kv2 (List.mem_cons_of_mem _ hm)
    rcases kv with ⟨k, v⟩
    simp only [mqFold] at hok
    cases hk1 : (k == "id") with
    | true =>
      have hfg : fragFor h k v = Except.ok (h, [("id", v)]) := by
        simp [fragFor, hk1]
      rw [hfg] at hok
      exact ih hrest _ (Inv_merge_nonref_single fuel n nq h0 h "id" v hv hinv) h2 hok
    | false =>
      cases hk2 : (k == "ids") with
      | true =>
        have hfg : fragFor h k v
            = Except.ok (h ++ [[("$in", compactHV v)]], [("id", HVal.ref h.length)]) := by
          simp [fragFor, hk1, hk2, alloc]
        rw [hfg] at hok
        have hoNR : NoRefs [("$in", compactHV v)] := by
          intro kv2 hm2
          rw [List.mem_singleton.mp hm2]
          exact isRef_compactHV v hv
        have hinv2 : Inv n nq h0 (h ++ [[("$in", compactHV v)]]) :=
          Inv_alloc n nq h0 h _ hinv hoNR
        have hm1 : n ≤ h.length := by
          obtain ⟨i1, i2, -⟩ := hinv
          omega
        have hm2 : h.length ≠ nq := by
          obtain ⟨i1, i2, -⟩ := hinv
          omega
        have hmNR : NoRefs (getO (h ++ [[("$in", compactHV v)]]) h.length) := by
          rw [getO_append_self]
          exact hoNR
        exact ih hrest _
          (Inv_merge_ref_single fuel n nq h0 _ "id" h.length hm1 hm2 hmNR hinv2) h2 hok
      | false =>
        cases hk3 : (k == "_id") with
        | true =>
          have hfg : fragFor h k v
              = Except.error (JSQ.JsErr.typeError "Tenge.makeOID is not a function") := by
            simp [fragFor, hk1, hk2, hk3]
          rw [hfg] at hok
          exact Except.noConfusion hok
        | false =>
          cases hk4 : (k == "_ids") with
          | true =>
            have hfg : fragFor h k v
                = Except.ok (h ++ [[("$in", compactHV v)]], [("_id", HVal.ref h.length)]) := by
              simp [fragFor, hk1, hk2, hk3, hk4, alloc]
            rw [hfg] at hok
            have hoNR : NoRefs [("$in", compactHV v)] := by
              intro kv2 hm2
              rw [List.mem_singleton.mp hm2]
              exact isRef_compactHV v hv
            have hinv2 : Inv n nq h0 (h ++ [[("$in", compactHV v)]]) :=
              Inv_alloc n nq h0 h _ hinv hoNR
            have hm1 : n ≤ h.length := by
              obtain ⟨i1, i2, -⟩ := hinv
              omega
            have hm2 : h.length ≠ nq := by
              obtain ⟨i1, i2, -⟩ := hinv
              omega
            have hmNR : NoRefs (getO (h ++ [[("$in", compactHV v)]]) h.length) := by
              rw [getO_append_self]
              exact hoNR
            exact ih hrest _
              (Inv_merge_ref_single fuel n nq h0 _ "_id" h.length hm1 hm2 hmNR hinv2) h2 hok
          | false =>
            have hfg : fragFor h k v = Except.error (JSQ.JsErr.tengeError
                ("Tenge: No query transformer registered for \"$$." ++ k ++ "\"")) := by
              simp [fragFor, hk1, hk2, hk3, hk4]
            rw [hfg] at hok
            exact Except.noConfusion hok


end JSH

/-- C4.  The claim says an `insert` with neither `doc` nor `docs` fails
with a validation error before any store call.  The code's guard
(src/index.js:198) asserts on `_.compact([].concat(params.doc,
params.docs))` — an *array*, which is always truthy in JS — so the
assertion never fires: the operation runs its hook chains on the empty
sequence and issues the store insert with an empty batch, completing
without error.  This theorem evaluates the embedded code at the failing
input. -/
theorem claim4_insert_missing_args_not_validated :
    (insertOp (Store.mk [] 0) noHooks none none).out = Except.ok [] ∧
    (insertOp (Store.mk [] 0) noHooks none none).trace
      = [Ev.hooks ChainId.beforeInsert [], Ev.insertEv [],
         Ev.hooks ChainId.afterInsert []] := by
  decide

/-- C6.  `_runHooks` (src/index.js:520-529) runs the handlers sequentially
in registration order over one shared payload; execution halts at the
first handler that signals failure, later handlers are never invoked (the
result does not depend on them and the call count excludes them), and the
payload as mutated by all handlers up to and including the failing one is
returned alongside that handler's error. -/
theorem claim6_runHooks_abort {π : Type} (hs1 hs2 : List (HookF π)) (hf : HookF π)
    (p p2 p3 : π) (e : String) (k : Nat)
    (h1 : runHooksG hs1 p = HRun.mk none p2 k)
    (h2 : hf p2 = (some e, p3)) :
    runHooksG (hs1 ++ hf :: hs2) p = HRun.mk (some e) p3 (k + 1) := by
  induction hs1 generalizing p k with
  | nil =>
    simp only [runHooksG, HRun.mk.injEq] at h1
    obtain ⟨-, hp, hk⟩ := h1
    subst hp; subst hk
    simp [runHooksG, h2]
  | cons h t ih =>
    simp only [runHooksG] at h1 ⊢
    rcases hh : h p with ⟨e?, p4⟩
    cases e? with
    | some e2 => rw [hh] at h1; simp [HRun.mk.injEq] at h1
    | none =>
      rw [hh] at h1
      simp only [HRun.mk.injEq] at h1
      obtain ⟨he, hp, hk⟩ := h1
      have hrec : runHooksG t p4 = HRun.mk none p2 (runHooksG t p4).calls := by
        rcases hr : runHooksG t p4 with ⟨a, b, c⟩
        rw [hr] at he hp
        simp only at he hp
        simp [he, hp, hr]
      dsimp only
      simp only [List.append_eq]
      rw [ih p4 (runHooksG t p4).calls hrec]
      simp only [HRun.mk.injEq, true_and, and_true]
      omega

/-- Witness for C6: the spec's scenario `[h1, h2, h3(fails), h4]` over the
payload `[]` — the result is the payload mutated by `h1,h2,h3` only
(`[1,2,3]`), with three handler invocations (so `h4` never ran) and `h3`'s
error reported, matching the repository's own test
(src/unnamed/part_003:1052-1067). -/
theorem claim6_runHooks_abort_witness :
    runHooksG [pushHook 1, pushHook 2] ([] : List Nat) = HRun.mk none [1, 2] 2 ∧
    failHook [1, 2] = (some "error", [1, 2, 3]) ∧
    runHooksG [pushHook 1, pushHook 2, failHook, pushHook 4] ([] : List Nat)
      = HRun.mk (some "error") [1, 2, 3] 3 :=
  ⟨by decide, by decide,
    claim6_runHooks_abort [pushHook 1, pushHook 2] [pushHook 4] failHook
      [] [1, 2] [1, 2, 3] "error" 2 (by decide) (by decide)⟩

/-- C7 counterexample.  The claim says that for hook runs over a document
sequence each element gets its own independent chain run — handlers being
invoked once per element with that element as the target.  In the code
(src/index.js:520-529) a chain is run *once* with the whole sequence as
shared payload: over a two-element sequence a single registered handler is
invoked exactly once (not twice), and the payload it receives is the full
two-element list (the probe records its input's length, 2); `insert`'s
before-insert stage likewise hands the entire sequence to one chain run. -/
theorem claim7_fanout_counterexample :
    (runHooksG [probeHook] [Doc.mk 1 [], Doc.mk 2 []]).calls = 1 ∧
    ¬ (runHooksG [probeHook] [Doc.mk 1 [], Doc.mk 2 []]).calls = 2 ∧
    (runHooksG [probeHook] [Doc.mk 1 [], Doc.mk 2 []]).pay = [Doc.mk 2 []] ∧
    hookEvents (insertOp (Store.mk [] 0) (HookReg.mk [probeHook] [] [] [] [] [])
        none (some [Doc.mk 1 [], Doc.mk 2 []])).trace
      = [(ChainId.beforeInsert, [Doc.mk 1 [], Doc.mk 2 []]),
         (ChainId.afterInsert, [Doc.mk 2 []])] := by
  decide

/-- C7 as amended.  A hook stage over a document sequence runs *one*
sequential chain whose shared payload is the entire sequence: when the
chain succeeds, each registered handler has been invoked exactly once in
total (not once per element), and `insert`'s before-insert stage hands the
whole normalized sequence to that single chain run. -/
theorem claim7_single_chain_over_sequence (hs : List Hook) (ds : List Doc)
    (s : Store) (hr : HookReg) (dOpt : Option Doc) (dsOpt : Option (List Doc))
    (h1 : (runHooksG hs ds).err = none) :
    (runHooksG hs ds).calls = hs.length ∧
    (hookEvents (insertOp s hr dOpt dsOpt).trace).head?
      = some (ChainId.beforeInsert, insertDocsOf dOpt dsOpt) := by
  constructor
  · induction hs generalizing ds with
    | nil => simp [runHooksG]
    | cons h t ih =>
      simp only [runHooksG] at h1 ⊢
      rcases hh : h ds with ⟨e?, p2⟩
      cases e? with
      | some e => rw [hh] at h1; simp at h1
      | none =>
        rw [hh] at h1
        simp only at h1 ⊢
        rw [ih p2 h1]
        simp
  · unfold insertOp
    simp only [tassert, jsArrayTruthy, if_true]
    rcases he : (runHooksG hr.beforeInsert (insertDocsOf dOpt dsOpt)).err with - | e <;>
      simp [hookEvents]

/-- Witness for C7's amended theorem: two succeeding handlers over a
two-document payload are invoked twice in total, and the insert stage's
first hook event carries the whole sequence. -/
theorem claim7_single_chain_over_sequence_witness :
    (runHooksG [probeHook, probeHook] [Doc.mk 1 [], Doc.mk 2 []]).err = none ∧
    (runHooksG [probeHook, probeHook] [Doc.mk 1 [], Doc.mk 2 []]).calls = 2 ∧
    (hookEvents (insertOp (Store.mk [] 0) noHooks none
        (some [Doc.mk 1 [], Doc.mk 2 []])).trace).head?
      = some (ChainId.beforeInsert, [Doc.mk 1 [], Doc.mk 2 []]) := by
  refine ⟨by decide, ?_, ?_⟩
  · exact (claim7_single_chain_over_sequence [probeHook, probeHook]
      [Doc.mk 1 [], Doc.mk 2 []] (Store.mk [] 0) noHooks none
      (some [Doc.mk 1 [], Doc.mk 2 []]) (by decide)).1
  · exact (claim7_single_chain_over_sequence [probeHook, probeHook]
      [Doc.mk 1 [], Doc.mk 2 []] (Store.mk [] 0) noHooks none
      (some [Doc.mk 1 [], Doc.mk 2 []]) (by decide)).2

/-- When no document satisfies the filter, the store's find-and-modify
finds nothing to modify. -/
theorem famUpdateFirst_eq_none (p : Doc → Bool) (u : Upd) (l : List Doc)
    (h : l.filter p = []) : famUpdateFirst p u l = none := by
  induction l with
  | nil => rfl
  | cons d ds ih =>
    rw [List.filter_cons] at h
    by_cases hd : p d
    · simp [hd] at h
    · have hd2 : p d = false := by simpa using hd
      simp only [hd2, if_false, Bool.false_eq_true] at h
      simp [famUpdateFirst, hd2, ih h]

/-- C3.  `updateOne` (src/index.js:364-393): with no match and no upsert
the operation fails with the not-found error; when upsert was requested
but the store's find-and-modify reports no resulting document it fails
with the upsert-failed error; otherwise the returned document is run
through exactly one hook chain — after-upsert when the store's
was-upserted flag is set, after-update otherwise, never both.  The last
conjunct exercises the upsert path end-to-end: on a store where nothing
matches, requesting upsert runs only the after-upsert chain, on the
freshly created document. -/
theorem claim3_updateOne_outcomes (s : Store) (hr : HookReg) (q : Query) (u : Upd)
    (d : Doc) (w b : Bool)
    (hm : s.col.filter (matchesQ q) = []) :
    (updateOne s hr q u false).out = Except.error "Tenge: Document does not exist" ∧
    (updateOneAfterFAM none w true hr).1 = Except.error "Tenge: Upsert failed" ∧
    hookEvents (updateOneAfterFAM (some d) w b hr).2
      = [((if w then ChainId.afterUpsert else ChainId.afterUpdate), [d])] ∧
    hookEvents (updateOne s hr q u true).trace
      = [(ChainId.afterUpsert, [Doc.mk s.nextKey (applySet u (eqSeed q))])] := by
  have hfam : famUpdateFirst (matchesQ q) u s.col = none :=
    famUpdateFirst_eq_none _ _ _ hm
  refine ⟨?_, ?_, ?_, ?_⟩
  · simp [updateOne, storeFindAndModify, hfam, updateOneAfterFAM]
  · simp [updateOneAfterFAM]
  · cases w <;> simp [updateOneAfterFAM, hookEvents]
  · simp [updateOne, storeFindAndModify, hfam, updateOneAfterFAM, hookEvents]

/-- Witness for C3 at a concrete store: one document of age 20, filter
`{age: 150}`. -/
theorem claim3_updateOne_outcomes_witness :
    ((Store.mk [Doc.mk 1 [("age", 20)]] 2).col.filter
        (matchesQ (Query.fields [("age", 150)])) = []) ∧
    ((updateOne (Store.mk [Doc.mk 1 [("age", 20)]] 2) noHooks
        (Query.fields [("age", 150)]) [("hobby", 9)] false).out
      = Except.error "Tenge: Document does not exist" ∧
    (updateOneAfterFAM none true true noHooks).1
      = Except.error "Tenge: Upsert failed" ∧
    hookEvents (updateOneAfterFAM (some (Doc.mk 5 [])) true true noHooks).2
      = [((if true then ChainId.afterUpsert else ChainId.afterUpdate), [Doc.mk 5 []])] ∧
    hookEvents (updateOne (Store.mk [Doc.mk 1 [("age", 20)]] 2) noHooks
        (Query.fields [("age", 150)]) [("hobby", 9)] true).trace
      = [(ChainId.afterUpsert,
          [Doc.mk 2 (applySet [("hobby", 9)] (eqSeed (Query.fields [("age", 150)])))])]) :=
  ⟨by decide,
   claim3_updateOne_outcomes (Store.mk [Doc.mk 1 [("age", 20)]] 2) noHooks
     (Query.fields [("age", 150)]) [("hobby", 9)] (Doc.mk 5 []) true true (by decide)⟩

/-- C2.  `updateAll` (src/index.js:409-461) on a filter matching zero
documents.  Without upsert: the multi-update the store sees is the one
restricted to the (empty) snapshot key set, the result is the empty
sequence, and no hook chain runs.  With upsert: the multi-update is issued
against the *original* filter with the upsert option, the newly created
key is captured from the store's upsert report, the created document is
re-fetched by that key and returned, and only the after-upsert chain
(never after-update) runs on it. -/
theorem claim2_updateAll_nomatch (s : Store) (hr : HookReg) (q : Query) (u : Upd)
    (hm : s.col.filter (matchesQ q) = [])
    (hk : ∀ d, d ∈ s.col → d.key < s.nextKey) :
    ((updateAll s hr q u false).out = Except.ok [] ∧
     hookEvents (updateAll s hr q u false).trace = [] ∧
     updateEvents (updateAll s hr q u false).trace = [(Query.byKeys [], false)]) ∧
    ((updateAll s hr q u true).trace
        = [Ev.find q true, Ev.update q true,
           Ev.find (Query.byKeys [s.nextKey]) false,
           Ev.hooks ChainId.afterUpsert [Doc.mk s.nextKey (applySet u (eqSeed q))]] ∧
     (updateAll s hr q u true).out
        = hookResult (runHooksG hr.afterUpsert [Doc.mk s.nextKey (applySet u (eqSeed q))]) ∧
     (updateAll s hr q u true).store
        = Store.mk (s.col ++ [Doc.mk s.nextKey (applySet u (eqSeed q))]) (s.nextKey + 1)) := by
  have hsnap : find s (FindParams.mk q (some keyLeB) 0 0) = [] := by
    simp [find, hm, sortByB, List.insertionSort]
  have hbk : s.col.filter (matchesQ (Query.byKeys ([] : List Nat))) = [] := by
    simp [matchesQ]
  have hupd0 : storeUpdate s (Query.byKeys ([] : List Nat)) u false = (s, UpdResult.mk 0 []) := by
    simp [storeUpdate, hbk]
  have hupd1 : storeUpdate s q u true
      = (Store.mk (s.col ++ [Doc.mk s.nextKey (applySet u (eqSeed q))]) (s.nextKey + 1),
         UpdResult.mk 1 [s.nextKey]) := by
    simp [storeUpdate, hm]
  have hcf : s.col.filter (matchesQ (Query.byKeys [s.nextKey])) = [] := by
    refine List.filter_eq_nil_iff.mpr ?_
    intro d hd
    simp only [matchesQ, List.mem_singleton, decide_eq_true_eq]
    exact Nat.ne_of_lt (hk d hd)
  have hfetch :
      find (Store.mk (s.col ++ [Doc.mk s.nextKey (applySet u (eqSeed q))]) (s.nextKey + 1))
        (FindParams.mk (Query.byKeys [s.nextKey]) (some keyLeB) 0 0)
      = [Doc.mk s.nextKey (applySet u (eqSeed q))] := by
    simp [find, List.filter_append, hcf, matchesQ, sortByB, List.insertionSort,
      List.orderedInsert]
  constructor
  · simp [updateAll, hsnap, hupd0, hookEvents, updateEvents]
  · simp [updateAll, hsnap, hupd1, hfetch, hookEvents]

/-- Witness for C2 at a concrete store: one document of age 20, filter
`{age: 150}`, update `{$set: {hobby: 9}}`. -/
theorem claim2_updateAll_nomatch_witness :
    (((Store.mk [Doc.mk 1 [("age", 20)]] 2).col.filter
        (matchesQ (Query.fields [("age", 150)])) = []) ∧
      ∀ d, d ∈ (Store.mk [Doc.mk 1 [("age", 20)]] 2).col → d.key < 2) ∧
    ((updateAll (Store.mk [Doc.mk 1 [("age", 20)]] 2) noHooks
        (Query.fields [("age", 150)]) [("hobby", 9)] false).out = Except.ok [] ∧
     hookEvents (updateAll (Store.mk [Doc.mk 1 [("age", 20)]] 2) noHooks
        (Query.fields [("age", 150)]) [("hobby", 9)] false).trace = [] ∧
     hookEvents (updateAll (Store.mk [Doc.mk 1 [("age", 20)]] 2) noHooks
        (Query.fields [("age", 150)]) [("hobby", 9)] true).trace
       = [(ChainId.afterUpsert,
           [Doc.mk 2 (applySet [("hobby", 9)] (eqSeed (Query.fields [("age", 150)])))])]) := by
  have h := claim2_updateAll_nomatch (Store.mk [Doc.mk 1 [("age", 20)]] 2) noHooks
    (Query.fields [("age", 150)]) [("hobby", 9)] (by decide) (by decide)
  refine ⟨⟨by decide, by decide⟩, h.1.1, h.1.2.1, ?_⟩
  rw [h.2.1]
  decide

/-- C5.  `remove` (src/index.js:319-344) first snapshots the matching
documents by a `find` (sort/limit/skip applied), hands that snapshot to the
before-remove chain — whose possibly truncated or replaced output list,
not the original snapshot, determines the delete: the only delete the
store ever sees is restricted to the primary keys of the post-hook list
(and is skipped when that list is empty), the resulting collection is the
old one minus exactly those keys, the after-remove chain runs on that same
list, and the operation returns the post-after-hook list. -/
theorem claim5_remove_uses_hook_modified_list (s : Store) (hr : HookReg) (p : FindParams)
    (h1 : (runHooksG hr.beforeRemove (find s p)).err = none) :
    hookEvents (removeOp s hr p).trace
      = [(ChainId.beforeRemove, find s p),
         (ChainId.afterRemove, (runHooksG hr.beforeRemove (find s p)).pay)] ∧
    removeEvents (removeOp s hr p).trace
      = (if (runHooksG hr.beforeRemove (find s p)).pay.isEmpty then []
         else [Query.byKeys ((runHooksG hr.beforeRemove (find s p)).pay.map Doc.key)]) ∧
    (removeOp s hr p).store.col
      = s.col.filter (fun d =>
          !(matchesQ (Query.byKeys ((runHooksG hr.beforeRemove (find s p)).pay.map Doc.key)) d)) ∧
    (removeOp s hr p).out
      = hookResult (runHooksG hr.afterRemove (runHooksG hr.beforeRemove (find s p)).pay) := by
  simp only [removeOp]
  rcases hrb : runHooksG hr.beforeRemove (find s p) with ⟨e?, pay, calls⟩
  rw [hrb] at h1
  simp only at h1
  subst h1
  dsimp only
  cases hpe : pay.isEmpty with
  | true =>
    have hpay : pay = [] := List.isEmpty_iff.mp hpe
    subst hpay
    simp [hookEvents, removeEvents, matchesQ]
  | false =>
    simp [hookEvents, removeEvents]

/-- Witness for C5: a two-document store whose before-remove hook truncates
the snapshot to its first element; the delete is issued for that single
key only, the second document survives, and the after-remove chain sees
the truncated list. -/
theorem claim5_remove_uses_hook_modified_list_witness :
    (runHooksG [fun l => (none, l.take 1)] (find (Store.mk [Doc.mk 1 [("a", 1)], Doc.mk 2 [("a", 1)]] 3) (FindParams.mk (Query.fields [("a", 1)]) none 0 0))).err = none ∧
    removeEvents (removeOp (Store.mk [Doc.mk 1 [("a", 1)], Doc.mk 2 [("a", 1)]] 3)
        (HookReg.mk [] [fun l => (none, l.take 1)] [] [] [] [])
        (FindParams.mk (Query.fields [("a", 1)]) none 0 0)).trace
      = [Query.byKeys [1]] ∧
    (removeOp (Store.mk [Doc.mk 1 [("a", 1)], Doc.mk 2 [("a", 1)]] 3)
        (HookReg.mk [] [fun l => (none, l.take 1)] [] [] [] [])
        (FindParams.mk (Query.fields [("a", 1)]) none 0 0)).store.col
      = [Doc.mk 2 [("a", 1)]] := by
  refine ⟨by decide, ?_, ?_⟩
  · have h := claim5_remove_uses_hook_modified_list
      (Store.mk [Doc.mk 1 [("a", 1)], Doc.mk 2 [("a", 1)]] 3)
      (HookReg.mk [] [fun l => (none, l.take 1)] [] [] [] [])
      (FindParams.mk (Query.fields [("a", 1)]) none 0 0) (by decide)
    rw [h.2.1]
    decide
  · have h := claim5_remove_uses_hook_modified_list
      (Store.mk [Doc.mk 1 [("a", 1)], Doc.mk 2 [("a", 1)]] 3)
      (HookReg.mk [] [fun l => (none, l.take 1)] [] [] [] [])
      (FindParams.mk (Query.fields [("a", 1)]) none 0 0) (by decide)
    rw [h.2.2.1]
    decide

/-- A find with the default `{_id: 1}` sort and no skip/limit is the
sorted filter of the collection. -/
theorem find_all_eq (s : Store) (q : Query) :
    find s (FindParams.mk q (some keyLeB) 0 0)
      = sortByB keyLeB (s.col.filter (matchesQ q)) := by
  simp [find]

/-- A non-upsert multi-update leaves the collection's primary keys
unchanged (documents are updated in place, `$set` never touches `_id`). -/
theorem storeUpdate_keys (s : Store) (q : Query) (u : Upd) :
    ((storeUpdate s q u false).1).col.map Doc.key = s.col.map Doc.key := by
  unfold storeUpdate
  by_cases h : (s.col.filter (matchesQ q)).isEmpty
  · simp [h]
  · simp only [h, Bool.false_eq_true, if_false, List.map_map]
    refine List.map_congr_left ?_
    intro d _
    by_cases hd : matchesQ q d <;> simp [hd, applyU, Function.comp]

/-- C1.  `updateAll` (src/index.js:409-461) on a filter matching at least
one document, for either value of the upsert flag: the snapshot find is
issued with projection limited to the key field; the single multi-update
the store sees is restricted to exactly the snapshot's key set (never the
original filter); the operation re-fetches by that key set; the re-fetched
documents — the payload on which the after-update chain (and no
after-upsert chain) runs, and, absent registered hooks, the returned
sequence itself — carry exactly the snapshot's primary keys (a permutation
of the snapshot key list); and the callback receives the post-hook list. -/
theorem claim1_updateAll_matched (s : Store) (hr : HookReg) (q : Query) (u : Upd) (b : Bool)
    (snap : List Doc) (ids : List Nat) (s1 : Store) (fetched : List Doc)
    (hsnap : snap = find s (FindParams.mk q (some keyLeB) 0 0))
    (hids : ids = snap.map Doc.key)
    (hs1 : s1 = (storeUpdate s (Query.byKeys ids) u false).1)
    (hftch : fetched = find s1 (FindParams.mk (Query.byKeys ids) (some keyLeB) 0 0))
    (hm : s.col.filter (matchesQ q) ≠ [])
    (hnd : (s.col.map Doc.key).Nodup) :
    (updateAll s hr q u b).trace
      = [Ev.find q true, Ev.update (Query.byKeys ids) false,
         Ev.find (Query.byKeys ids) false, Ev.hooks ChainId.afterUpdate fetched] ∧
    (updateAll s hr q u b).out = hookResult (runHooksG hr.afterUpdate fetched) ∧
    (updateAll s hr q u b).store = s1 ∧
    List.Perm (fetched.map Doc.key) ids ∧
    (hr.afterUpdate = [] → (updateAll s hr q u b).out = Except.ok fetched) := by
  have hperm1 : List.Perm snap (s.col.filter (matchesQ q)) := by
    rw [hsnap, find_all_eq]
    exact List.perm_insertionSort _ _
  have hsnap_ne : snap ≠ [] := by
    intro h0
    rw [h0] at hperm1
    exact hm hperm1.symm.eq_nil
  have hids_ne : ids ≠ [] := by
    rw [hids]
    simp only [ne_eq, List.map_eq_nil_iff]
    exact hsnap_ne
  have hidsE : ids.isEmpty = false := by
    cases h2 : ids.isEmpty
    · rfl
    · exact absurd (List.isEmpty_iff.mp h2) hids_ne
  have hkeys : s1.col.map Doc.key = s.col.map Doc.key := by
    rw [hs1]
    exact storeUpdate_keys s (Query.byKeys ids) u
  obtain ⟨d0, hd0⟩ := List.exists_mem_of_ne_nil _ hm
  have hd0col : d0 ∈ s.col := (List.mem_filter.mp hd0).1
  have hd0k : d0.key ∈ ids := by
    rw [hids]
    exact List.mem_map_of_mem Doc.key (hperm1.mem_iff.mpr hd0)
  have hd0k1 : d0.key ∈ s1.col.map Doc.key := by
    rw [hkeys]
    exact List.mem_map_of_mem Doc.key hd0col
  obtain ⟨d1, hd1col, hd1k⟩ := List.mem_map.mp hd0k1
  have hd1f : d1 ∈ s1.col.filter (matchesQ (Query.byKeys ids)) := by
    rw [List.mem_filter]
    refine ⟨hd1col, ?_⟩
    simp only [matchesQ, decide_eq_true_eq]
    rw [hd1k]
    exact hd0k
  have hfperm : List.Perm fetched (s1.col.filter (matchesQ (Query.byKeys ids))) := by
    rw [hftch, find_all_eq]
    exact List.perm_insertionSort _ _
  have hf_ne : fetched ≠ [] := by
    intro h0
    rw [h0] at hfperm
    exact List.ne_nil_of_mem hd1f hfperm.symm.eq_nil
  have hfE : fetched.isEmpty = false := by
    cases h2 : fetched.isEmpty
    · rfl
    · exact absurd (List.isEmpty_iff.mp h2) hf_ne
  have hndF : (fetched.map Doc.key).Nodup := by
    have hsub : List.Sublist ((s1.col.filter (matchesQ (Query.byKeys ids))).map Doc.key)
        (s1.col.map Doc.key) := (List.filter_sublist _).map Doc.key
    have hnd1 : (s1.col.map Doc.key).Nodup := by
      rw [hkeys]
      exact hnd
    exact ((hfperm.map Doc.key).nodup_iff).mpr (hnd1.sublist hsub)
  have hndI : ids.Nodup := by
    rw [hids]
    have hsub : List.Sublist ((s.col.filter (matchesQ q)).map Doc.key)
        (s.col.map Doc.key) := (List.filter_sublist _).map Doc.key
    exact ((hperm1.map Doc.key).nodup_iff).mpr (hnd.sublist hsub)
  have hmemiff : ∀ k, k ∈ fetched.map Doc.key ↔ k ∈ ids := by
    intro k
    constructor
    · intro hk
      have hk2 := (hfperm.map Doc.key).mem_iff.mp hk
      obtain ⟨d2, hd2f, hd2k⟩ := List.mem_map.mp hk2
      have hmt := (List.mem_filter.mp hd2f).2
      simp only [matchesQ, decide_eq_true_eq] at hmt
      exact hd2k ▸ hmt
    · intro hk0
      have hkId : k ∈ ids := hk0
      rw [hids] at hk0
      have hk2 : k ∈ (s.col.filter (matchesQ q)).map Doc.key :=
        ((hperm1.map Doc.key).mem_iff).mp hk0
      obtain ⟨d2, hd2f, hd2k⟩ := List.mem_map.mp hk2
      have hd2col : d2 ∈ s.col := (List.mem_filter.mp hd2f).1
      have hk3 : k ∈ s1.col.map Doc.key := by
        rw [hkeys]
        exact hd2k ▸ List.mem_map_of_mem Doc.key hd2col
      obtain ⟨d3, hd3col, hd3k⟩ := List.mem_map.mp hk3
      have hd3f : d3 ∈ s1.col.filter (matchesQ (Query.byKeys ids)) := by
        rw [List.mem_filter]
        refine ⟨hd3col, ?_⟩
        simp only [matchesQ, decide_eq_true_eq]
        rw [hd3k]
        exact hkId
      have hk4 : k ∈ (s1.col.filter (matchesQ (Query.byKeys ids))).map Doc.key :=
        hd3k ▸ List.mem_map_of_mem Doc.key hd3f
      exact ((hfperm.map Doc.key).mem_iff).mpr hk4
  have hPerm : List.Perm (fetched.map Doc.key) ids :=
    (List.perm_ext_iff_of_nodup hndF hndI).mpr hmemiff
  have heval : updateAll s hr q u b = OpOut.mk s1
      [Ev.find q true, Ev.update (Query.byKeys ids) false, Ev.find (Query.byKeys ids) false,
       Ev.hooks ChainId.afterUpdate fetched]
      (hookResult (runHooksG hr.afterUpdate fetched)) := by
    simp only [updateAll, ← hsnap, ← hids, hidsE, ← hs1, ← hftch, hfE, Bool.false_and,
      Bool.false_eq_true, if_false]
  rw [heval]
  refine ⟨rfl, rfl, rfl, hPerm, ?_⟩
  intro h0
  rw [h0]
  simp [runHooksG, hookResult]

/-- Witness for C1 at a concrete store: three documents, two of which
match `{age: 17}`; the update is confined to their keys `[1, 3]` and the
returned documents carry exactly those keys. -/
theorem claim1_updateAll_matched_witness :
    ((Store.mk [Doc.mk 1 [("age", 17)], Doc.mk 2 [("age", 20)], Doc.mk 3 [("age", 17)]] 4).col.filter
        (matchesQ (Query.fields [("age", 17)])) ≠ [] ∧
     ((Store.mk [Doc.mk 1 [("age", 17)], Doc.mk 2 [("age", 20)], Doc.mk 3 [("age", 17)]] 4).col.map
        Doc.key).Nodup) ∧
    (updateAll (Store.mk [Doc.mk 1 [("age", 17)], Doc.mk 2 [("age", 20)], Doc.mk 3 [("age", 17)]] 4)
        noHooks (Query.fields [("age", 17)]) [("hobby", 5)] false).trace
      = [Ev.find (Query.fields [("age", 17)]) true,
         Ev.update (Query.byKeys [1, 3]) false,
         Ev.find (Query.byKeys [1, 3]) false,
         Ev.hooks ChainId.afterUpdate
           [Doc.mk 1 [("age", 17), ("hobby", 5)], Doc.mk 3 [("age", 17), ("hobby", 5)]]] ∧
    List.Perm
      ([Doc.mk 1 [("age", 17), ("hobby", 5)], Doc.mk 3 [("age", 17), ("hobby", 5)]].map Doc.key)
      [1, 3] := by
  have h := claim1_updateAll_matched
    (Store.mk [Doc.mk 1 [("age", 17)], Doc.mk 2 [("age", 20)], Doc.mk 3 [("age", 17)]] 4)
    noHooks (Query.fields [("age", 17)]) [("hobby", 5)] false
    [Doc.mk 1 [("age", 17)], Doc.mk 3 [("age", 17)]] [1, 3]
    ((storeUpdate (Store.mk [Doc.mk 1 [("age", 17)], Doc.mk 2 [("age", 20)], Doc.mk 3 [("age", 17)]] 4)
        (Query.byKeys [1, 3]) [("hobby", 5)] false).1)
    [Doc.mk 1 [("age", 17), ("hobby", 5)], Doc.mk 3 [("age", 17), ("hobby", 5)]]
    (by decide) (by decide) rfl (by decide) (by decide) (by decide)
  exact ⟨⟨by decide, by decide⟩, h.1, h.2.2.2.1⟩

/-- C8.  The claim says each marker entry resolves through its registered
transformer, the store-primary-key variants converting the textual id(s)
into the store's native key representation.  The `id`/`ids` transformers
and the marker stripping behave as claimed (third and fourth conjuncts,
mirroring the repository's own test inputs, src/unnamed/part_003:1020-1036),
but the store-primary-key variants do not: the transformers reference
`Tenge.makeOID`, which the source never defines (`makeOID` lives on
`Tenge.prototype` only, src/index.js:132), so `$$._id` throws a TypeError
instead of producing `{_id: ObjectId(...)}` (first conjunct), and
`$$._ids` hands the undefined iteratee to `_.map` — identity in lodash —
leaving plain strings where native ObjectIds were promised (second and
fifth conjuncts). -/
theorem claim8_storeId_transformers_broken :
    JSQ.makeQuery [("$$", JSQ.JVal.obj [("_id", JSQ.JVal.str "55694ef8a8d8596e1b0d8830")])]
      = Except.error (JSQ.JsErr.typeError "Tenge.makeOID is not a function") ∧
    JSQ.makeQuery [("$$", JSQ.JVal.obj [("_ids",
        JSQ.JVal.arr [JSQ.JVal.str "55694ef8a8d8596e1b0d8830",
                      JSQ.JVal.str "5568807f840cf93a0bc08514"])])]
      = Except.ok [("_id", JSQ.JVal.obj [("$in",
          JSQ.JVal.arr [JSQ.JVal.str "55694ef8a8d8596e1b0d8830",
                        JSQ.JVal.str "5568807f840cf93a0bc08514"])])] ∧
    JSQ.makeQuery [("name", JSQ.JVal.str "Alice"),
        ("$$", JSQ.JVal.obj [("id", JSQ.JVal.str "V1GQFknvH")])]
      = Except.ok [("name", JSQ.JVal.str "Alice"), ("id", JSQ.JVal.str "V1GQFknvH")] ∧
    JSQ.makeQuery [("$$", JSQ.JVal.obj [("ids",
        JSQ.JVal.arr [JSQ.JVal.str "NkXtJhvB", JSQ.JVal.str "V1GQFknvH"])])]
      = Except.ok [("id", JSQ.JVal.obj [("$in",
          JSQ.JVal.arr [JSQ.JVal.str "NkXtJhvB", JSQ.JVal.str "V1GQFknvH"])])] ∧
    ¬ JSQ.makeQuery [("$$", JSQ.JVal.obj [("_ids",
        JSQ.JVal.arr [JSQ.JVal.str "55694ef8a8d8596e1b0d8830"])])]
      = Except.ok [("_id", JSQ.JVal.obj [("$in",
          JSQ.JVal.arr [JSQ.JVal.oid "55694ef8a8d8596e1b0d8830"])])] := by
  refine ⟨rfl, rfl, rfl, rfl, ?_⟩
  intro h
  have h2 : (Except.ok [("_id", JSQ.JVal.obj [("$in",
      JSQ.JVal.arr [JSQ.JVal.str "55694ef8a8d8596e1b0d8830"])])] : Except JSQ.JsErr JSQ.JObj)
      = Except.ok [("_id", JSQ.JVal.obj [("$in",
      JSQ.JVal.arr [JSQ.JVal.oid "55694ef8a8d8596e1b0d8830"])])] := h
  simp at h2

/-- C9.  Against a fixed collection state, `count` (src/index.js:257-265)
returns the raw match cardinality, unaffected by any `skip`/`limit`
parameters, while `size` (src/index.js:275-283) returns the post-skip/limit
yield: `min(limit, max(0, count - skip))` when a limit is given, and
`max(0, count - skip)` when the limit is falsy (unbounded) — natural-number
subtraction expressing the `max(0, ·)` truncation. -/
theorem claim9_count_size (s : Store) (p : FindParams) (sk li : Nat) :
    count s (FindParams.mk p.query p.sort sk li) = count s p ∧
    size s p = (if p.limit = 0 then count s p - p.skip
                else min p.limit (count s p - p.skip)) := by
  refine ⟨rfl, ?_⟩
  rcases p with ⟨q, so, skp, lim⟩
  unfold size find count sortByB
  cases so with
  | none =>
    by_cases h : lim = 0 <;> simp [h]
  | some le =>
    by_cases h : lim = 0 <;>
      simp [h, (List.perm_insertionSort (fun a b => le a b = true) _).length_eq]

/-- C10 counterexample.  The claim says `_makeQuery` never mutates the
caller's `params.query` object.  The `_.omit` copy is *shallow*, so nested
objects are shared between input and output, and `_.merge` merges a
transformer fragment into such a shared nested object *in place*: with
base query `{id: {$gt: "x"}, $$: {ids: ["a"]}}` the `ids` fragment
`{id: {$in: ["a"]}}` deep-merges into the caller's own `{$gt: "x"}`
object, which afterwards reads `{$gt: "x", $in: ["a"]}` — the caller's
`params.query`, read deeply the way the cited test's
cloneDeep/deep-equality check reads it (src/unnamed/part_003:1013-1017),
has changed. -/
theorem claim10_makeQuery_mutates_shared_nested_object :
    List.lookup "query" (JSH.getO mutationCexHeap 3) = some (JSH.HVal.ref 2) ∧
    List.lookup "id" (JSH.getO mutationCexHeap 2) = some (JSH.HVal.ref 0) ∧
    JSH.getO mutationCexHeap 0 = [("$gt", JSH.HVal.str "x")] ∧
    (match JSH.makeQueryH 9 mutationCexHeap 3 with
      | Except.ok hr => JSH.getO hr.1 0
      | Except.error _ => []) = [("$gt", JSH.HVal.str "x"), ("$in", JSH.HVal.arr ["a"])] ∧
    ¬ ((match JSH.makeQueryH 9 mutationCexHeap 3 with
      | Except.ok hr => JSH.getO hr.1 0
      | Except.error _ => []) = JSH.getO mutationCexHeap 0) := by
  decide

/-- C10 as amended.  `_makeQuery` builds the normalized query as a fresh
top-level object and never rebinds a property of the caller's objects:
whenever every value the caller shares with the normalizer is an
identity-free primitive — the base query's own (non-marker) values and
the marker sub-object's values are plain strings, neither nested objects
*nor arrays* (a JS array is an object: lodash 3 merges an array fragment
over a caller-shared array positionally in place, so array-valued
bindings mutate the caller just as the counterexample's nested object
does), and the marker binding is absent or a sub-object — the entire
caller heap is left untouched; on such inputs every write of `_.omit`,
`_.compact` and `_.merge` targets a freshly built object.  Mutation can
leak into the input only through the shallow sharing of objects or arrays
that these hypotheses exclude. -/
theorem claim10_makeQuery_fresh_output_flat_inputs (fuel : Nat) (h : JSH.Heap)
    (pa qa : Nat)
    (hq : List.lookup "query" (JSH.getO h pa) = some (JSH.HVal.ref qa))
    (hflat : ∀ kv, kv ∈ JSH.getO h qa → kv.1 ≠ "$$" → JSH.hasIdentity kv.2 = false)
    (hss : ∀ sa, List.lookup "$$" (JSH.getO h qa) = some (JSH.HVal.ref sa) →
      JSH.NoSharedVals (JSH.getO h sa))
    (hssShape : List.lookup "$$" (JSH.getO h qa) = none ∨
      ∃ sa, List.lookup "$$" (JSH.getO h qa) = some (JSH.HVal.ref sa))
    (h2 : JSH.Heap) (r : Nat)
    (hok : JSH.makeQueryH fuel h pa = Except.ok (h2, r)) :
    ∀ a, a < h.length → JSH.getO h2 a = JSH.getO h a := by
  have hN : JSH.NoRefs ((JSH.getO h qa).filter (fun kv => !(kv.1 == "$$"))) := by
    intro kv hm
    have h1m := List.mem_filter.mp hm
    apply JSH.isRef_eq_false_of_no_identity
    apply hflat kv h1m.1
    intro hcon
    have h2m := h1m.2
    rw [hcon] at h2m
    simp at h2m
  have hinv0 : JSH.Inv h.length h.length h
      (h ++ [(JSH.getO h qa).filter (fun kv => !(kv.1 == "$$"))]) := by
    refine ⟨Nat.le_refl _, by simp, ?_, ?_, ?_⟩
    · intro a ha
      exact JSH.getO_append_ne h _ a (by omega)
    · intro k a2 hm
      rw [JSH.getO_append_self] at hm
      have h3m := hN (k, JSH.HVal.ref a2) hm
      simp [JSH.isRef] at h3m
    · intro a2 ha2 hne
      rw [JSH.getO_of_ge_length _ a2 (by simp; omega)]
      exact JSH.NoRefs_nil
  simp only [JSH.makeQueryH, hq] at hok
  rcases hl : List.lookup "$$" (JSH.getO h qa) with - | w
  all_goals rw [hl] at hok
  case none =>
    rcases hfold : JSH.mqFold fuel h.length
        (h ++ [(JSH.getO h qa).filter (fun kv => !(kv.1 == "$$"))]) [] with e | h3
    all_goals rw [hfold] at hok
    case error => exact Except.noConfusion hok
    case ok =>
      have hinv3 := JSH.mqFold_inv fuel h.length h.length h [] JSH.NoRefs_nil _ hinv0 h3 hfold
      obtain ⟨i1, i2, i3, i4, i5⟩ := hinv3
      injection hok with hpair
      injection hpair with hh2 hr2
      intro a ha
      rw [← hh2, JSH.getO_append_ne h3 _ a (by omega)]
      exact i3 a ha
  case some =>
    cases w with
    | str s2 =>
      exfalso
      rcases hssShape with hn | ⟨sa, hr⟩
      · rw [hl] at hn
        exact Option.noConfusion hn
      · rw [hl] at hr
        injection hr with hv
        exact JSH.HVal.noConfusion hv
    | arr xs =>
      exfalso
      rcases hssShape with hn | ⟨sa, hr⟩
      · rw [hl] at hn
        exact Option.noConfusion hn
      · rw [hl] at hr
        injection hr with hv
        exact JSH.HVal.noConfusion hv
    | ref sa =>
      rcases hfold : JSH.mqFold fuel h.length
          (h ++ [(JSH.getO h qa).filter (fun kv => !(kv.1 == "$$"))])
          (JSH.getO h sa) with e | h3
      all_goals rw [hfold] at hok
      case error => exact Except.noConfusion hok
      case ok =>
        have hinv3 := JSH.mqFold_inv fuel h.length h.length h (JSH.getO h sa)
          (JSH.NoRefs_of_NoSharedVals _ (hss sa hl)) _ hinv0 h3 hfold
        obtain ⟨i1, i2, i3, i4, i5⟩ := hinv3
        injection hok with hpair
        injection hpair with hh2 hr2
        intro a ha
        rw [← hh2, JSH.getO_append_ne h3 _ a (by omega)]
        exact i3 a ha

/-- Witness for C10's amended theorem: on the flat input the normalization
succeeds, allocates only fresh objects, and the caller's entire heap reads
unchanged. -/
theorem claim10_makeQuery_fresh_output_flat_inputs_witness :
    List.lookup "query" (JSH.getO flatCaseHeap 2) = some (JSH.HVal.ref 1) ∧
    JSH.makeQueryH 9 flatCaseHeap 2
      = Except.ok (flatCaseHeap ++
          [[("name", JSH.HVal.str "Alice"), ("id", JSH.HVal.str "V1")],
           [("query", JSH.HVal.ref 3)]], 4) ∧
    (∀ a, a < flatCaseHeap.length →
      JSH.getO (flatCaseHeap ++
          [[("name", JSH.HVal.str "Alice"), ("id", JSH.HVal.str "V1")],
           [("query", JSH.HVal.ref 3)]]) a = JSH.getO flatCaseHeap a) := by
  refine ⟨by decide, by decide, ?_⟩
  exact claim10_makeQuery_fresh_output_flat_inputs 9 flatCaseHeap 2 1 (by decide)
    (by decide)
    (by intro sa hsa
        have he : List.lookup "$$" (JSH.getO flatCaseHeap 1) = some (JSH.HVal.ref 0) := by
          decide
        rw [he] at hsa
        injection hsa with hv
        injection hv with ha
        rw [← ha]
        intro kv hm
        rw [List.mem_singleton.mp hm]
        decide)
    (Or.inr ⟨0, by decide⟩) _ 4 (by decide)
